import Mathlib

/-!
Verification of the prompty tracing core (`runtime/prompty/prompty/tracer.py`).

Python values flowing through the tracer are modelled by the inductive
`PyValue`: strings, integers (numeric values are modelled as `Int`; the
program's claims only concern integer usage counters), booleans, `None`,
lists, and string-keyed dicts (an insertion-ordered association list, like a
Python `dict`).  Fallible Python operations (subscripting, `+=`, iteration)
return `Except PyErr _`.
-/

inductive PyValue where
  | str (s : String)
  | int (n : Int)
  | bool (b : Bool)
  | none
  | list (xs : List PyValue)
  | dict (kvs : List (String × PyValue))
  deriving Repr

mutual

/-- boolean equality on `PyValue` (the derive handler does not support the
nested occurrence of `PyValue` under `List`) -/
def PyValue.beq : PyValue → PyValue → Bool
  | .str a, .str b => a == b
  | .int a, .int b => a == b
  | .bool a, .bool b => a == b
  | .none, .none => true
  | .list a, .list b => PyValue.beqList a b
  | .dict a, .dict b => PyValue.beqEntries a b
  | _, _ => false

/-- boolean equality on lists of `PyValue` -/
def PyValue.beqList : List PyValue → List PyValue → Bool
  | [], [] => true
  | a :: as, b :: bs => PyValue.beq a b && PyValue.beqList as bs
  | _, _ => false

/-- boolean equality on dict entry lists -/
def PyValue.beqEntries :
    List (String × PyValue) → List (String × PyValue) → Bool
  | [], [] => true
  | (k, a) :: as, (l, b) :: bs =>
    k == l && PyValue.beq a b && PyValue.beqEntries as bs
  | _, _ => false

end

mutual

theorem PyValue.beq_iff : ∀ a b : PyValue, PyValue.beq a b = true ↔ a = b
  | .str a, .str b => by simp [PyValue.beq]
  | .int a, .int b => by simp [PyValue.beq]
  | .bool a, .bool b => by simp [PyValue.beq]
  | .none, .none => by simp [PyValue.beq]
  | .list a, .list b => by
    simpa [PyValue.beq] using PyValue.beqList_iff a b
  | .dict a, .dict b => by
    simpa [PyValue.beq] using PyValue.beqEntries_iff a b
  | .str _, .int _ | .str _, .bool _ | .str _, .none | .str _, .list _
  | .str _, .dict _ | .int _, .str _ | .int _, .bool _ | .int _, .none
  | .int _, .list _ | .int _, .dict _ | .bool _, .str _ | .bool _, .int _
  | .bool _, .none | .bool _, .list _ | .bool _, .dict _ | .none, .str _
  | .none, .int _ | .none, .bool _ | .none, .list _ | .none, .dict _
  | .list _, .str _ | .list _, .int _ | .list _, .bool _ | .list _, .none
  | .list _, .dict _ | .dict _, .str _ | .dict _, .int _ | .dict _, .bool _
  | .dict _, .none | .dict _, .list _ => by simp [PyValue.beq]

theorem PyValue.beqList_iff :
    ∀ a b : List PyValue, PyValue.beqList a b = true ↔ a = b
  | [], [] => by simp [PyValue.beqList]
  | a :: as, b :: bs => by
    simp [PyValue.beqList, PyValue.beq_iff a b, PyValue.beqList_iff as bs]
  | [], _ :: _ => by simp [PyValue.beqList]
  | _ :: _, [] => by simp [PyValue.beqList]

theorem PyValue.beqEntries_iff :
    ∀ a b : List (String × PyValue), PyValue.beqEntries a b = true ↔ a = b
  | [], [] => by simp [PyValue.beqEntries]
  | (k, a) :: as, (l, b) :: bs => by
    simp [PyValue.beqEntries, PyValue.beq_iff a b,
      PyValue.beqEntries_iff as bs, and_assoc, Prod.ext_iff]
  | [], _ :: _ => by simp [PyValue.beqEntries]
  | _ :: _, [] => by simp [PyValue.beqEntries]

end

instance : DecidableEq PyValue := fun a b =>
  decidable_of_iff _ (PyValue.beq_iff a b)

inductive PyErr where
  | keyError
  | typeError
  | attributeError
  | indexError
  deriving DecidableEq, Repr

/-- Python `d[k]` lookup on an association list: first matching key wins
(Python dicts cannot hold duplicate keys; duplicate-freedom appears as an
explicit hypothesis where it matters). -/
def dictLookup (kvs : List (String × PyValue)) (k : String) : Option PyValue :=
  match kvs with
  | [] => Option.none
  | (k', v) :: rest => if k' = k then some v else dictLookup rest k

/-- Python `d[k] = v`: replace the first binding of `k` in place (preserving
its position, as Python dicts preserve insertion order), or append a new
binding at the end when `k` is absent. -/
def dictSet (kvs : List (String × PyValue)) (k : String) (v : PyValue) :
    List (String × PyValue) :=
  match kvs with
  | [] => [(k, v)]
  | (k', v') :: rest =>
    if k' = k then (k', v) :: rest else (k', v') :: dictSet rest k v

/-- Python `x + y` for the value shapes the tracer can reach: integer
addition, string and list concatenation; anything else raises `TypeError`. -/
def pyAdd (a b : PyValue) : Except PyErr PyValue :=
  match a, b with
  | .int x, .int y => .ok (.int (x + y))
  | .str x, .str y => .ok (.str (x ++ y))
  | .list x, .list y => .ok (.list (x ++ y))
  | _, _ => .error .typeError

/-- Python `k in x` for a string `k`: key membership on dicts, substring
test on strings, element membership on lists; `TypeError` otherwise. -/
def pyInOp (k : String) (x : PyValue) : Except PyErr Bool :=
  match x with
  | .dict kvs => .ok (dictLookup kvs k).isSome
  | .str s => .ok (strContains s k)
  | .list xs => .ok (xs.contains (.str k))
  | _ => .error .typeError
where
  /-- whether `pat` matches a prefix of `cs` -/
  matchesAt (pat cs : List Char) : Bool :=
    match pat, cs with
    | [], _ => true
    | _ :: _, [] => false
    | p :: ps, c :: rest => p == c && matchesAt ps rest
  /-- whether `pat` occurs as a contiguous substring of `cs` -/
  hasSub (pat cs : List Char) : Bool :=
    match cs with
    | [] => pat.isEmpty
    | _ :: t => matchesAt pat cs || hasSub pat t
  /-- Python `needle in hay` on strings -/
  strContains (hay needle : String) : Bool := hasSub needle.data hay.data

/-- Python subscript read `x[k]`: `KeyError` for a missing dict key,
`TypeError` for a non-subscriptable value. -/
def pySubGet (x : PyValue) (k : String) : Except PyErr PyValue :=
  match x with
  | .dict kvs =>
    match dictLookup kvs k with
    | some v => .ok v
    | Option.none => .error .keyError
  | _ => .error .typeError

/-- Python subscript write `x[k] = v`; `TypeError` unless `x` is a dict. -/
def pySubSet (x : PyValue) (k : String) (v : PyValue) : Except PyErr PyValue :=
  match x with
  | .dict kvs => .ok (.dict (dictSet kvs k v))
  | _ => .error .typeError

/-! ## Sanitizer (`sanitize`, tracer.py lines 16-24) -/

/-- the list of sensitive substrings hard-coded in `sanitize` -/
def sensitiveSubstrings : List String :=
  ["key", "token", "secret", "password", "credential"]

/-- Python `key.lower()`: character-wise lowercasing (`String.toLower`
itself is defined by well-founded recursion and does not reduce in the
kernel, so the equivalent character-list map is used) -/
def pyLower (s : String) : String :=
  String.mk (s.data.map Char.toLower)

/-- `any([s in key.lower() for s in [...]])` from `sanitize` -/
def isSensitiveKey (key : String) : Bool :=
  sensitiveSubstrings.any (fun s => pyInOp.strContains (pyLower key) s)

/-- a string of `n` asterisks, Python's `n * "*"` -/
def asterisks (n : Nat) : String :=
  String.mk (List.replicate n '*')

mutual

/-- `sanitize(key, value)` from tracer.py: a string value under a sensitive
key becomes a same-length string of asterisks; a dict is rebuilt sanitizing
each entry under that entry's own key; every other value (lists included)
passes through unchanged. -/
def sanitize (key : String) : PyValue → PyValue
  | .str s => if isSensitiveKey key then .str (asterisks s.length) else .str s
  | .dict kvs => .dict (sanitizeEntries kvs)
  | .int n => .int n
  | .bool b => .bool b
  | .none => .none
  | .list xs => .list xs

/-- the dict comprehension `{k: sanitize(k, v) for k, v in value.items()}` -/
def sanitizeEntries : List (String × PyValue) → List (String × PyValue)
  | [] => []
  | (k, v) :: rest => (k, sanitize k v) :: sanitizeEntries rest

end

/-! ## Generic serializer (`to_dict`, tracer.py lines 54-81)

The claims quantify over JSON-safe values, which `PyValue` represents
exactly; the branches of `to_dict` for datetimes, Prompty objects, streams,
pydantic models and filesystem paths handle values outside this type and are
therefore not reachable in the model.  `None` hits the final
`str(obj)` fallback, producing the string `"None"`. -/

mutual

/-- `to_dict(obj)` from tracer.py restricted to JSON-safe inputs plus
`None`: primitives pass through, lists map `to_dict` element-wise, dicts
keep string values unchanged and recurse on all other values, and `None`
falls through to the `str(obj)` fallback, giving `"None"`. -/
def toDict : PyValue → PyValue
  | .str s => .str s
  | .int n => .int n
  | .bool b => .bool b
  | .list xs => .list (toDictList xs)
  | .dict kvs => .dict (toDictEntries kvs)
  | .none => .str "None"

/-- the list comprehension `[to_dict(item) for item in obj]` -/
def toDictList : List PyValue → List PyValue
  | [] => []
  | x :: rest => toDict x :: toDictList rest

/-- the dict comprehension
`{k: v if isinstance(v, str) else to_dict(v) for k, v in obj.items()}` -/
def toDictEntries : List (String × PyValue) → List (String × PyValue)
  | [] => []
  | (k, v) :: rest =>
    (k, match v with | .str s => .str s | v' => toDict v') :: toDictEntries rest

end

/-! ## Sink registry and emission fan-out (`Tracer.start`, tracer.py 40-51)

Registered sinks are identified here by name (the keys of `Tracer._tracers`;
`dict.values()` iterates in insertion order).  The composite emit closure
yielded by `Tracer.start` calls each open sink scope's emit with
`(key, sanitize(key, to_dict(value)))`, in that same order. -/

/-- one emit through the fan-out lambda of `Tracer.start`: the list of
`(sink, key, value-as-the-sink-sees-it)` observations, in registration
order -/
def emitFanOut (sinks : List String) (key : String) (value : PyValue) :
    List (String × String × PyValue) :=
  sinks.map (fun s => (s, key, sanitize key (toDict value)))

/-! `Tracer.start` enters every registered sink factory inside a
`contextlib.ExitStack`.  The model below embeds the documented ExitStack
semantics: scopes are entered in order; when entering one raises, the
already-entered scopes are unwound in reverse order before the error
propagates; on normal or exceptional exit of the `with` body all entered
scopes are unwound in reverse order.  A factory is represented by whether
its scope opens successfully. -/

inductive SinkEv where
  | enter (i : Nat)
  | close (i : Nat)
  | body
  deriving DecidableEq, Repr

/-- unwinding a stack of entered scopes (head = most recently entered) -/
def teardown (entered : List Nat) : List SinkEv :=
  entered.map SinkEv.close

/-- entering each factory's scope in registration order; returns the enter
events, the stack of successfully entered scopes (most recent first), and
whether every scope opened -/
def openScopes : List Bool → Nat → List SinkEv × List Nat × Bool
  | [], _ => ([], [], true)
  | ok :: rest, i =>
    if ok then
      let (evs, entered, succ) := openScopes rest (i + 1)
      (SinkEv.enter i :: evs, entered ++ [i], succ)
    else ([], [], false)

/-- the event trace of one `Tracer.start` scope over factories
`factories` (true = that factory's scope opens successfully), with
`bodyOk` telling whether the `with` body ran without raising; the returned
flag is true when `start` completed without an exception propagating -/
def startTracers (factories : List Bool) (bodyOk : Bool) :
    List SinkEv × Bool :=
  let (evs, entered, succ) := openScopes factories 0
  if succ then (evs ++ [SinkEv.body] ++ teardown entered, bodyOk)
  else (evs ++ teardown entered, false)

/-! ## Instrumentation wrapper (`_trace_sync`, tracer.py 101-152)

`_trace_async` (lines 155-192) has the identical span-emission logic with
an awaited call, so one model covers both variants.  A wrapped target is
modelled by its resolved signature, its declared positional-or-keyword
parameter list with defaults (the shapes the claims exercise), and a body
mapping bound arguments to a value or a raised exception. -/

structure PyExn where
  typeName : String
  message : String
  args : List PyValue
  deriving DecidableEq, Repr

structure TraceFn where
  signature : String
  params : List String
  defaults : List (String × PyValue)
  body : List (String × PyValue) → Except PyExn PyValue

/-- binding values for the parameters left unfilled by positional
arguments: keyword argument first, declared default otherwise, failure
(`TypeError` from `Signature.bind`) when a required parameter is missing -/
def bindRemaining (defaults kwargs : List (String × PyValue)) :
    List String → Option (List (String × PyValue))
  | [] => some []
  | p :: ps =>
    match (match dictLookup kwargs p with
           | some v => some v
           | Option.none => dictLookup defaults p) with
    | some v =>
      match bindRemaining defaults kwargs ps with
      | some rest => some ((p, v) :: rest)
      | Option.none => Option.none
    | Option.none => Option.none

/-- `inspect.signature(func).bind(*args, **kwargs)` followed by
`apply_defaults()`: parameters are bound in declaration order, positional
arguments first, then keyword arguments, then defaults; too many positional
arguments, an unknown keyword, a keyword for a positionally-bound
parameter, or a missing required parameter make the bind raise (`none`). -/
def bindCallArgs (params : List String) (defaults : List (String × PyValue))
    (args : List PyValue) (kwargs : List (String × PyValue)) :
    Option (List (String × PyValue)) :=
  if params.length < args.length then Option.none
  else if kwargs.any (fun kv => !((params.drop args.length).contains kv.1))
  then Option.none
  else
    match bindRemaining defaults kwargs (params.drop args.length) with
    | some rest => some ((params.take args.length).zip args ++ rest)
    | Option.none => Option.none

/-- `_inputs(func, args, kwargs)` from tracer.py: the bound arguments with
the implicit `self` receiver removed and every value serialized -/
def pyInputs (f : TraceFn) (args : List PyValue)
    (kwargs : List (String × PyValue)) : Option (List (String × PyValue)) :=
  (bindCallArgs f.params f.defaults args kwargs).map
    (fun ba => (ba.filter (fun kv => kv.1 != "self")).map
      (fun kv => (kv.1, toDict kv.2)))

/-- `_results(result)` from tracer.py:
`to_dict(result) if result is not None else "None"` -/
def pyResults (r : PyValue) : PyValue :=
  if r = PyValue.none then .str "None" else toDict r

/-- Inside the except handler of `_trace_sync`/`_trace_async` the
expression `type(e)` resolves `type` to the enclosing decorator's keyword
parameter (a `str` or `None`), which shadows the builtin; calling it raises
`TypeError` before any field of the payload is emitted.  (Independently,
`traceback.format_tb()` on the next line is missing its required `tb`
argument, which would also raise `TypeError`.) -/
def callTypeParam (ty : Option String) : PyExn :=
  match ty with
  | Option.none => ⟨"TypeError", "'NoneType' object is not callable", []⟩
  | some _ => ⟨"TypeError", "'str' object is not callable", []⟩

/-- one invocation of the `_trace_sync` wrapper: the (key, value) pairs the
wrapper passes to the span's `trace` callback, in order, and its outcome.
`none` means argument binding itself raised inside `_inputs`. -/
def traceSyncRun (f : TraceFn) (description ty : Option String)
    (args : List PyValue) (kwargs : List (String × PyValue)) :
    Option (List (String × PyValue) × Except PyExn PyValue) :=
  match bindCallArgs f.params f.defaults args kwargs with
  | Option.none => Option.none
  | some bound =>
    let inputs := (bound.filter (fun kv => kv.1 != "self")).map
      (fun kv => (kv.1, toDict kv.2))
    let d := description.getD ""
    let pre :=
      [("signature", PyValue.str f.signature)]
      ++ (if d ≠ "" then [("description", PyValue.str d)] else [])
      ++ (match ty with
          | some t => if t ≠ "" then [("type", PyValue.str t)] else []
          | Option.none => [])
      ++ [("inputs", PyValue.dict inputs)]
    match f.body bound with
    | .ok r => some (pre ++ [("result", pyResults r)], .ok r)
    | .error _ => some (pre, .error (callTypeParam ty))

/-! ## File-backed span recorder (`PromptyTracer`, tracer.py 206-307)

A span frame is the Python dict built by `PromptyTracer.tracer`: an
insertion-ordered association list holding the reserved keys `name`,
`__time`, `__usage`, `__frames` alongside the user-emitted fields.  The
recorder state is the explicit frame stack (head = `self.stack[-1]`) plus
the artifacts written to disk so far.  Wall-clock timestamps, being real
time, enter the model as opaque parameters (`startEntry`/`timeEntry` for
the `__time` values, `ts` for the filename timestamp, `version` for
`importlib.metadata.version("prompty")`).

A Python-level detail deliberately not modelled: the raw assignment
`frame["__usage"] = frame["result"]["usage"]` aliases the result's usage
dict, so later `+=` updates also mutate `frame["result"]["usage"]`; no
claim observes the result field after close, so the model tracks only the
final `__usage` value. -/

abbrev Frame := List (String × PyValue)

/-- the `add` closure of `PromptyTracer.tracer` (lines 227-235): a fresh
key is inserted; adding to a key whose current value is a list appends to
that list; adding to any other existing value replaces it by the pair
`[old, new]` -/
def frameAdd (fr : Frame) (key : String) (v : PyValue) : Frame :=
  match dictLookup fr key with
  | Option.none => fr ++ [(key, v)]
  | some (.list xs) => dictSet fr key (.list (xs ++ [v]))
  | some old => dictSet fr key (.list [old, v])

/-- Python iteration `for x in v`: lists yield elements, strings yield
one-character strings, dicts yield their keys; other values raise -/
def pyIter (x : PyValue) : Except PyErr (List PyValue) :=
  match x with
  | .list xs => .ok xs
  | .str s => .ok (s.data.map (fun c => .str (String.mk [c])))
  | .dict kvs => .ok (kvs.map (fun kv => .str kv.1))
  | _ => .error .typeError

/-- the set-or-increment loop shared by the streamed-result hoist and the
child hoist (lines 269-273 and 281-285):
`if key not in u: u[key] = value else: u[key] += value` -/
def accUsage (u : PyValue) : List (String × PyValue) → Except PyErr PyValue
  | [] => .ok u
  | (k, v) :: rest => do
    let b ← pyInOp k u
    let u' ←
      if b then do
        let old ← pySubGet u k
        let s ← pyAdd old v
        pySubSet u k s
      else pySubSet u k v
    accUsage u' rest

/-- the strict increment loop of lines 254-255 (`u0[key] += value`, raising
`KeyError` on a key absent from `u0`) -/
def accUsageStrict (u : PyValue) :
    List (String × PyValue) → Except PyErr PyValue
  | [] => .ok u
  | (k, v) :: rest => do
    let old ← pySubGet u k
    let s ← pyAdd old v
    let u' ← pySubSet u k s
    accUsageStrict u' rest

/-- lines 250-257: hoisting from a dict-shaped result.  With no
pre-existing `__usage` the result's usage object is taken as-is (no shape
check); with a pre-existing `__usage` its items are added strictly
(`.items()` requires the usage object to be a dict). -/
def hoistResult (result : Option PyValue) (usage0 : Option PyValue) :
    Except PyErr (Option PyValue) :=
  match result with
  | some (.dict kvs) =>
    match dictLookup kvs "usage" with
    | some u =>
      match usage0 with
      | some u0 =>
        match u with
        | .dict us => (accUsageStrict u0 us).map some
        | _ => .error .attributeError
      | Option.none => .ok (some u)
    | Option.none => .ok usage0
  | _ => .ok usage0

/-- the element loop of lines 260-273: elements of a list-shaped result
that are dicts carrying a dict-shaped `usage` are accumulated (`__usage`
is initialised to `{}` on first use); all other elements are skipped -/
def hoistStreamList :
    List PyValue → Option PyValue → Except PyErr (Option PyValue)
  | [], u => .ok u
  | r :: rest, u =>
    match r with
    | .dict m =>
      match dictLookup m "usage" with
      | some (.dict us) => do
        let u' ← accUsage (u.getD (.dict [])) us
        hoistStreamList rest (some u')
      | _ => hoistStreamList rest u
    | _ => hoistStreamList rest u

/-- lines 259-273: streamed results hoist usage only when the result is a
(Python) list -/
def hoistStream (result : Option PyValue) (usage0 : Option PyValue) :
    Except PyErr (Option PyValue) :=
  match result with
  | some (.list rs) => hoistStreamList rs usage0
  | _ => .ok usage0

/-- the child loop of lines 276-285: every child carrying a `__usage` key
contributes its items (`.items()` requires the child's `__usage` to be a
dict); `__usage` is initialised to `{}` on first use -/
def hoistChildren :
    List PyValue → Option PyValue → Except PyErr (Option PyValue)
  | [], u => .ok u
  | c :: rest, u => do
    let b ← pyInOp "__usage" c
    if b then do
      let cu ← pySubGet c "__usage"
      match cu with
      | .dict cus => do
        let u' ← accUsage (u.getD (.dict [])) cus
        hoistChildren rest (some u')
      | _ => .error .attributeError
    else hoistChildren rest u

/-- the whole usage-hoisting block of the close path (lines 250-285),
acting on a frame: the three stages run in source order, and the frame's
`__usage` key ends up holding the accumulated value (if any) -/
def hoistUsage (fr : Frame) : Except PyErr Frame := do
  let result := dictLookup fr "result"
  let u1 ← hoistResult result (dictLookup fr "__usage")
  let u2 ← hoistStream result u1
  let u3 ←
    match dictLookup fr "__frames" with
    | some fv => do
      let cs ← pyIter fv
      hoistChildren cs u2
    | Option.none => .ok u2
  match u3 with
  | some u => .ok (dictSet fr "__usage" u)
  | Option.none => .ok fr

/-- Python `str(v)` / `f"{v}"` for the value shapes that can occupy a
frame's `name` slot in practice (the wrapper always stores a string; the
container renderings are not needed by any claim) -/
def pyStrOf : PyValue → String
  | .str s => s
  | .int n => toString n
  | .bool b => if b then "True" else "False"
  | .none => "None"
  | _ => "<object>"

/-- one trace file written by the close path (lines 287-302): the
`json.dump`ed object `{runtime, version, trace}` and the file's name -/
structure Artifact where
  runtime : String
  version : String
  trace : PyValue
  filename : String
  deriving DecidableEq, Repr

/-- the `PromptyTracer` state: `self.stack` (head = top) plus the trace
files written so far, in order -/
structure RecState where
  stack : List Frame
  artifacts : List Artifact
  deriving Repr

/-- scope entry of `PromptyTracer.tracer` (lines 220-225): push
`{"name": name}` and set its `__time` start entry -/
def openStep (name : String) (startEntry : PyValue) (st : RecState) :
    RecState :=
  ⟨[("name", PyValue.str name), ("__time", startEntry)] :: st.stack,
    st.artifacts⟩

/-- scope exit of `PromptyTracer.tracer` (lines 238-307): pop the frame,
rewrite `__time`, hoist usage; the root frame (stack now empty) is written
as `{runtime: "python", version, trace: frame}` to
`"{frame['name']}.{timestamp}.tracy"`, any other frame is appended to the
new stack top's `__frames` list -/
def closeStep (version ts : String) (timeEntry : PyValue) (st : RecState) :
    Except PyErr RecState :=
  match st.stack with
  | [] => .error .indexError
  | fr0 :: rest => do
    let fr ← hoistUsage (dictSet fr0 "__time" timeEntry)
    match rest with
    | [] => do
      let nameV ← pySubGet (PyValue.dict fr) "name"
      .ok ⟨[], st.artifacts ++
        [⟨"python", version, PyValue.dict fr,
          pyStrOf nameV ++ "." ++ ts ++ ".tracy"⟩]⟩
    | parent :: ps => do
      let parent' ←
        match dictLookup parent "__frames" with
        | Option.none =>
          .ok (dictSet parent "__frames" (.list [PyValue.dict fr]))
        | some (.list xs) =>
          .ok (dictSet parent "__frames" (.list (xs ++ [PyValue.dict fr])))
        | some _ => .error .attributeError
      .ok ⟨parent' :: ps, st.artifacts⟩

/-- `add` on the innermost open span (the wrapper only ever emits to the
most recently started span while it is open) -/
def addStep (key : String) (v : PyValue) (st : RecState) :
    Except PyErr RecState :=
  match st.stack with
  | [] => .error .indexError
  | fr :: rest => .ok ⟨frameAdd fr key v :: rest, st.artifacts⟩

/-- span lifecycle events reaching one `PromptyTracer` -/
inductive TraceEv where
  | push (name : String)
  | add (key : String) (value : PyValue)
  | pop
  deriving Repr

/-- running a sequence of span events against the recorder -/
def runRecorder (version ts : String) (startEntry timeEntry : PyValue) :
    List TraceEv → RecState → Except PyErr RecState
  | [], st => .ok st
  | ev :: rest, st => do
    let st' ←
      match ev with
      | .push n => .ok (openStep n startEntry st)
      | .add k v => addStep k v st
      | .pop => closeStep version ts timeEntry st
    runRecorder version ts startEntry timeEntry rest st'

/-- the number of closes that occur at nesting depth one (root closes) in
an event sequence, starting from depth `d` -/
def rootCloses : List TraceEv → Nat → Nat
  | [], _ => 0
  | .push _ :: rest, d => rootCloses rest (d + 1)
  | .add _ _ :: rest, d => rootCloses rest d
  | .pop :: rest, d => (if d = 1 then 1 else 0) + rootCloses rest (d - 1)

/-! ## Basic association-list lemmas -/

theorem dictLookup_dictSet (kvs : List (String × PyValue)) (k : String)
    (v : PyValue) (k' : String) :
    dictLookup (dictSet kvs k v) k' =
      if k = k' then some v else dictLookup kvs k' := by
  induction kvs with
  | nil => by_cases h : k = k' <;> simp [dictSet, dictLookup, h]
  | cons hd tl ih =>
    obtain ⟨k1, v1⟩ := hd
    by_cases h1 : k1 = k
    · subst h1
      by_cases h2 : k1 = k' <;> simp [dictSet, dictLookup, h2]
    · by_cases h2 : k1 = k'
      · subst h2
        have : ¬ k = k1 := fun h => h1 h.symm
        simp [dictSet, dictLookup, h1, this]
      · simp [dictSet, dictLookup, h1, h2, ih]

theorem dictLookup_append (xs ys : List (String × PyValue)) (k : String) :
    dictLookup (xs ++ ys) k = ((dictLookup xs k).or (dictLookup ys k)) := by
  induction xs with
  | nil => simp [dictLookup]
  | cons hd tl ih =>
    obtain ⟨k1, v1⟩ := hd
    by_cases h : k1 = k <;> simp [dictLookup, h, ih]

theorem dictLookup_mem {kvs : List (String × PyValue)} {k : String}
    {v : PyValue} (h : dictLookup kvs k = some v) : (k, v) ∈ kvs := by
  induction kvs with
  | nil => simp [dictLookup] at h
  | cons hd tl ih =>
    obtain ⟨k1, v1⟩ := hd
    by_cases h1 : k1 = k
    · subst h1
      simp [dictLookup] at h
      simp [h]
    · simp [dictLookup, h1] at h
      exact List.mem_cons_of_mem _ (ih h)

/-! ## C7: idempotence of the serializer on JSON-safe values -/

mutual

theorem toDict_toDict : ∀ v : PyValue, toDict (toDict v) = toDict v
  | .str _ => rfl
  | .int _ => rfl
  | .bool _ => rfl
  | .none => rfl
  | .list xs => by simp only [toDict]; rw [toDictList_toDictList xs]
  | .dict kvs => by simp only [toDict]; rw [toDictEntries_toDictEntries kvs]

theorem toDictList_toDictList :
    ∀ xs : List PyValue, toDictList (toDictList xs) = toDictList xs
  | [] => rfl
  | x :: rest => by
    simp only [toDictList]
    rw [toDict_toDict x, toDictList_toDictList rest]

theorem toDictEntries_toDictEntries :
    ∀ kvs : List (String × PyValue),
      toDictEntries (toDictEntries kvs) = toDictEntries kvs
  | [] => rfl
  | (k, v) :: rest => by
    cases v <;>
      simp only [toDictEntries, toDict] <;>
      rw [toDictEntries_toDictEntries rest] <;>
      first
        | rfl
        | (rw [toDictList_toDictList])
        | (rw [toDictEntries_toDictEntries])

end

/-- C7: for every JSON-safe value `v` (string, number, boolean, null,
ordered sequence of JSON-safe values, or string-keyed mapping of JSON-safe
values), `to_dict(to_dict(v)) == to_dict(v)`. -/
theorem c7_toDict_idempotent (v : PyValue) : toDict (toDict v) = toDict v :=
  toDict_toDict v

/-! ## C4: the sanitizer contract -/

theorem sanitizeEntries_eq_map (kvs : List (String × PyValue)) :
    sanitizeEntries kvs = kvs.map (fun kv => (kv.1, sanitize kv.1 kv.2)) := by
  induction kvs with
  | nil => rfl
  | cons hd tl ih =>
    obtain ⟨k, v⟩ := hd
    simp [sanitizeEntries, ih]

theorem asterisks_length (n : Nat) : (asterisks n).length = n := by
  simp [asterisks, String.length]

/-- C4: `sanitize` turns a string value under a case-insensitively
sensitive key into a string of exactly as many asterisks; it recurses into
string-keyed mappings entry-wise under each entry's own key; and it returns
every other value — ordered sequences and their elements included —
unchanged. -/
theorem c4_sanitize_contract (key s : String)
    (kvs : List (String × PyValue)) (xs : List PyValue) (v : PyValue) :
    (isSensitiveKey key = true →
      sanitize key (.str s) = .str (asterisks s.length)
        ∧ (asterisks s.length).length = s.length)
    ∧ sanitize key (.dict kvs) =
        .dict (kvs.map (fun kv => (kv.1, sanitize kv.1 kv.2)))
    ∧ sanitize key (.list xs) = .list xs
    ∧ ((∀ s', v ≠ .str s') → (∀ kvs', v ≠ .dict kvs') →
        sanitize key v = v) := by
  refine ⟨fun h => ⟨by simp [sanitize, h], asterisks_length s.length⟩,
    by simp [sanitize, sanitizeEntries_eq_map], rfl, fun hs hd => ?_⟩
  cases v with
  | str s' => exact absurd rfl (hs s')
  | dict kvs' => exact absurd rfl (hd kvs')
  | _ => rfl

/-- witness for `c4_sanitize_contract`: the key `"api_key"` is sensitive and
a four-character secret becomes `"****"`, while an integer under the same
key passes through. -/
theorem c4_sanitize_contract_witness :
    isSensitiveKey "api_key" = true
      ∧ sanitize "api_key" (.str "abcd") = .str (asterisks 4)
      ∧ sanitize "api_key" (.int 7) = .int 7 := by
  refine ⟨by decide, ?_, ?_⟩
  · exact ((c4_sanitize_contract "api_key" "abcd" [] [] (.int 7)).1
      (by decide)).1
  · exact (c4_sanitize_contract "api_key" "abcd" [] [] (.int 7)).2.2.2
      (fun _ h => by cases h) (fun _ h => by cases h)

/-! ## C5: the fan-out emit -/

/-- C5: one `emit(key, value)` through the composite closure yielded by
`Tracer.start` reaches every registered sink, in registration order, with
the identical pair `(key, sanitize(key, to_dict(value)))`; in particular a
key `"api_key"` with value `"abcd"` is observed by every sink as `"****"`. -/
theorem c5_fanout_identical_pairs (sinks : List String) (key : String)
    (value : PyValue) :
    (emitFanOut sinks key value).map (fun e => e.1) = sinks
    ∧ (emitFanOut sinks key value).map (fun e => e.2) =
        List.replicate sinks.length (key, sanitize key (toDict value))
    ∧ emitFanOut sinks "api_key" (.str "abcd") =
        sinks.map (fun s => (s, "api_key", PyValue.str "****")) := by
  refine ⟨?_, ?_, ?_⟩
  · induction sinks with
    | nil => rfl
    | cons hd tl ih => simpa [emitFanOut] using ih
  · induction sinks with
    | nil => rfl
    | cons hd tl ih => simpa [emitFanOut, List.replicate] using ih
  · have h : sanitize "api_key" (toDict (.str "abcd")) = PyValue.str "****" :=
      by decide
    simp [emitFanOut, h]

/-! ## C9: repeated `add` calls on one key -/

/-- a sequence of `add(key, v)` calls against one open frame -/
def frameAddMany (fr : Frame) (key : String) (vs : List PyValue) : Frame :=
  vs.foldl (fun f v => frameAdd f key v) fr

theorem frameAdd_lookup_fresh (fr : Frame) (key : String) (v : PyValue)
    (h : dictLookup fr key = Option.none) :
    dictLookup (frameAdd fr key v) key = some v := by
  simp [frameAdd, h, dictLookup_append, dictLookup]

theorem frameAdd_lookup_nonlist (fr : Frame) (key : String) (old w : PyValue)
    (h : dictLookup fr key = some old)
    (hnl : ∀ xs, old ≠ PyValue.list xs) :
    dictLookup (frameAdd fr key w) key = some (.list [old, w]) := by
  have hstep : frameAdd fr key w = dictSet fr key (.list [old, w]) := by
    cases old <;> first
      | exact absurd rfl (hnl _)
      | simp [frameAdd, h]
  rw [hstep, dictLookup_dictSet]
  simp

theorem frameAddMany_from_list (key : String) (vs : List PyValue) :
    ∀ (fr : Frame) (xs : List PyValue),
      dictLookup fr key = some (.list xs) →
      dictLookup (frameAddMany fr key vs) key = some (.list (xs ++ vs)) := by
  induction vs with
  | nil => intro fr xs h; simpa [frameAddMany] using h
  | cons v rest ih =>
    intro fr xs h
    have step : frameAdd fr key v = dictSet fr key (.list (xs ++ [v])) := by
      simp [frameAdd, h]
    have hlook :
        dictLookup (frameAdd fr key v) key = some (.list (xs ++ [v])) := by
      rw [step, dictLookup_dictSet]; simp
    have := ih (frameAdd fr key v) (xs ++ [v]) hlook
    simpa [frameAddMany, List.append_assoc] using this

/-- C9 counterexample: on a fresh key whose first added value is itself a
list, the second `add` appends into that same list instead of producing the
two-element list of emitted values; the field ends up `[1, 2]`, not
`[[1], 2]` as the claim's emission-ordered-list-of-values reading
requires. -/
theorem c9_add_counterexample :
    dictLookup
        (frameAddMany [("name", PyValue.str "root")] "k"
          [PyValue.list [PyValue.int 1], PyValue.int 2]) "k"
      = some (PyValue.list [PyValue.int 1, PyValue.int 2])
    ∧ PyValue.list [PyValue.int 1, PyValue.int 2]
        ≠ PyValue.list [PyValue.list [PyValue.int 1], PyValue.int 2] := by
  exact ⟨by decide, by decide⟩

/-- C9 as amended: the first `add` for a key not yet in the frame stores
the value; each later `add` appends to the field when the field already
holds a list and otherwise replaces it with the two-element list
`[old, new]`; consequently the field is the emission-ordered list of added
values, except that a first value which is itself a list is extended in
place (its elements, not the list itself, head the field). -/
theorem c9_add_amended (fr : Frame) (key : String) (v : PyValue)
    (vs : List PyValue) (h : dictLookup fr key = Option.none) :
    dictLookup (frameAddMany fr key (v :: vs)) key =
      some (match vs, v with
            | [], _ => v
            | _ :: _, .list xs => .list (xs ++ vs)
            | _ :: _, _ => .list (v :: vs)) := by
  have hlook1 : dictLookup (frameAdd fr key v) key = some v :=
    frameAdd_lookup_fresh fr key v h
  cases vs with
  | nil => simpa [frameAddMany] using hlook1
  | cons w ws =>
    have hdec : (∃ xs, v = PyValue.list xs) ∨ (∀ xs, v ≠ PyValue.list xs) :=
      by cases v <;> simp
    rcases hdec with ⟨xs, rfl⟩ | hnl
    · have := frameAddMany_from_list key (w :: ws) (frameAdd fr key
        (.list xs)) xs hlook1
      simpa [frameAddMany] using this
    · have h2 := frameAdd_lookup_nonlist (frameAdd fr key v) key v w hlook1
        hnl
      have h3 := frameAddMany_from_list key ws _ [v, w] h2
      have hfold : frameAddMany fr key (v :: w :: ws) =
          frameAddMany (frameAdd (frameAdd fr key v) key w) key ws := by
        simp [frameAddMany]
      rw [hfold]
      cases v <;> first
        | exact absurd rfl (hnl _)
        | simpa using h3

/-- witness for `c9_add_amended`: three plain values added under a fresh
key end up as the emission-ordered list. -/
theorem c9_add_amended_witness :
    dictLookup ([("name", PyValue.str "root")] : Frame) "k" = Option.none
    ∧ dictLookup
        (frameAddMany [("name", PyValue.str "root")] "k"
          [PyValue.int 1, PyValue.int 2, PyValue.int 3]) "k"
      = some (PyValue.list [PyValue.int 1, PyValue.int 2, PyValue.int 3]) :=
  ⟨by decide,
    c9_add_amended [("name", PyValue.str "root")] "k" (PyValue.int 1)
      [PyValue.int 2, PyValue.int 3] (by decide)⟩

/-! ## C6: scope discipline of `Tracer.start` -/

theorem openScopes_all_true (k i : Nat) :
    openScopes (List.replicate k true) i =
      ((List.range' i k).map SinkEv.enter, (List.range' i k).reverse,
        true) := by
  induction k generalizing i with
  | zero => rfl
  | succ n ih =>
    simp only [List.replicate, openScopes, if_pos, ih (i + 1),
      List.range'_succ i n 1]
    simp

theorem openScopes_first_failure (k : Nat) (t : List Bool) (i : Nat) :
    openScopes (List.replicate k true ++ false :: t) i =
      ((List.range' i k).map SinkEv.enter, (List.range' i k).reverse,
        false) := by
  induction k generalizing i with
  | zero => rfl
  | succ n ih =>
    simp only [List.replicate, List.cons_append, openScopes, if_pos,
      ih (i + 1), List.range'_succ i n 1]
    simp [ih (i + 1)]

/-- C6: `Tracer.start` enters one scope per registered sink factory in
registration order; when every scope opens, the body runs and — whether it
returns or raises — all scopes are torn down in reverse order of opening;
when a later factory's scope fails to open, the earlier-opened scopes are
still torn down in reverse order before the error propagates. -/
theorem c6_start_scope_discipline (n k : Nat) (t : List Bool)
    (bodyOk : Bool) :
    startTracers (List.replicate n true) bodyOk =
      ((List.range n).map SinkEv.enter ++ [SinkEv.body]
        ++ ((List.range n).reverse).map SinkEv.close, bodyOk)
    ∧ startTracers (List.replicate k true ++ false :: t) bodyOk =
      ((List.range k).map SinkEv.enter
        ++ ((List.range k).reverse).map SinkEv.close, false) := by
  constructor
  · simp [startTracers, openScopes_all_true n 0, teardown,
      List.range_eq_range']
  · simp [startTracers, openScopes_first_failure k t 0, teardown,
      List.range_eq_range']

/-! ## C8: the wrapper's success path -/

/-- C8: whenever the wrapped target's arguments bind against its declared
parameter list and its body returns a value, the wrapper emits `inputs` as
the bound arguments (defaults applied, `self` excluded, values serialized),
emits `result` as `to_dict` of the returned value — or the literal string
`"None"` when the target produced no value — and hands the target's value
back to the caller. -/
theorem c8_wrapper_success (f : TraceFn) (description ty : Option String)
    (args : List PyValue) (kwargs bound : List (String × PyValue))
    (r : PyValue)
    (hb : bindCallArgs f.params f.defaults args kwargs = some bound)
    (hr : f.body bound = .ok r) :
    ∃ events,
      traceSyncRun f description ty args kwargs = some (events, .ok r)
      ∧ pyInputs f args kwargs =
          some ((bound.filter (fun kv => kv.1 != "self")).map
            (fun kv => (kv.1, toDict kv.2)))
      ∧ dictLookup events "inputs" =
          some (.dict ((bound.filter (fun kv => kv.1 != "self")).map
            (fun kv => (kv.1, toDict kv.2))))
      ∧ dictLookup events "result" = some (pyResults r)
      ∧ (r = PyValue.none → pyResults r = .str "None")
      ∧ (r ≠ PyValue.none → pyResults r = toDict r) := by
  simp only [traceSyncRun, hb, hr]
  refine ⟨_, rfl, ?_, ?_, ?_, ?_, ?_⟩
  · simp [pyInputs, hb]
  · cases ty with
    | none =>
      by_cases hd : description.getD "" = "" <;>
        simp [traceSyncRun, hb, hr, hd, dictLookup_append, dictLookup]
    | some t =>
      by_cases hd : description.getD "" = "" <;> by_cases ht : t = "" <;>
        simp [traceSyncRun, hb, hr, hd, ht, dictLookup_append, dictLookup]
  · cases ty with
    | none =>
      by_cases hd : description.getD "" = "" <;>
        simp [traceSyncRun, hb, hr, hd, dictLookup_append, dictLookup]
    | some t =>
      by_cases hd : description.getD "" = "" <;> by_cases ht : t = "" <;>
        simp [traceSyncRun, hb, hr, hd, ht, dictLookup_append, dictLookup]
  · intro h; simp [pyResults, h]
  · intro h; simp [pyResults, h]

/-- the scenario target of the spec: `add(x, y) -> x + y` -/
def addFn : TraceFn where
  signature := "test.add"
  params := ["x", "y"]
  defaults := []
  body := fun bas =>
    match dictLookup bas "x", dictLookup bas "y" with
    | some (.int a), some (.int b) => .ok (.int (a + b))
    | _, _ => .error ⟨"TypeError", "unsupported operand type(s)", []⟩

/-- witness for `c8_wrapper_success`: wrapping `add(x, y) -> x + y` and
calling `add(2, 3)` emits `inputs == {"x": 2, "y": 3}` and `result == 5`
and returns `5`. -/
theorem c8_wrapper_success_witness :
    ∃ events,
      traceSyncRun addFn Option.none Option.none
          [PyValue.int 2, PyValue.int 3] [] = some (events, .ok (.int 5))
      ∧ pyInputs addFn [PyValue.int 2, PyValue.int 3] [] =
          some [("x", PyValue.int 2), ("y", PyValue.int 3)]
      ∧ dictLookup events "inputs" =
          some (.dict [("x", PyValue.int 2), ("y", PyValue.int 3)])
      ∧ dictLookup events "result" = some (PyValue.int 5) := by
  have h := c8_wrapper_success addFn Option.none Option.none
    [PyValue.int 2, PyValue.int 3] []
    [("x", PyValue.int 2), ("y", PyValue.int 3)] (.int 5) (by rfl) (by rfl)
  obtain ⟨events, h1, h2, h3, h4, -, h6⟩ := h
  refine ⟨events, h1, ?_, ?_, ?_⟩
  · simpa using h2
  · simpa using h3
  · rw [h4, h6 (by decide)]; rfl

/-! ## C1: the wrapper's exception path -/

/-- C1 (code bug): when the wrapped target raises, the except handler of
`_trace_sync`/`_trace_async` itself raises `TypeError` — `type(e)` calls
the decorator's `type` parameter (a `str` or `None`) because it shadows the
builtin, and `traceback.format_tb()` lacks its required argument — so no
`result` field carrying an exception payload is ever emitted and the caller
observes that `TypeError` instead of the original failure. -/
theorem c1_wrapper_exception_bug (f : TraceFn) (description ty : Option String)
    (args : List PyValue) (kwargs bound : List (String × PyValue))
    (e : PyExn)
    (hb : bindCallArgs f.params f.defaults args kwargs = some bound)
    (he : f.body bound = .error e) :
    ∃ events,
      traceSyncRun f description ty args kwargs =
        some (events, .error (callTypeParam ty))
      ∧ dictLookup events "result" = Option.none
      ∧ (callTypeParam ty).typeName = "TypeError"
      ∧ (e.typeName ≠ "TypeError" → callTypeParam ty ≠ e) := by
  simp only [traceSyncRun, hb, he]
  refine ⟨_, rfl, ?_, ?_, ?_⟩
  · cases ty with
    | none =>
      by_cases hd : description.getD "" = "" <;>
        simp [traceSyncRun, hb, he, hd, dictLookup_append, dictLookup]
    | some t =>
      by_cases hd : description.getD "" = "" <;> by_cases ht : t = "" <;>
        simp [traceSyncRun, hb, he, hd, ht, dictLookup_append, dictLookup]
  · cases ty <;> rfl
  · intro hty hcontra
    apply hty
    rw [← hcontra]
    cases ty <;> rfl

/-- the scenario target for the exception path: a function that raises
`ValueError("boom")` -/
def boomFn : TraceFn where
  signature := "test.boom"
  params := []
  defaults := []
  body := fun _ => .error ⟨"ValueError", "boom", [.str "boom"]⟩

/-- witness for `c1_wrapper_exception_bug`: calling the wrapped raising
target propagates the handler's `TypeError`, not the original
`ValueError`. -/
theorem c1_wrapper_exception_bug_witness :
    ∃ events,
      traceSyncRun boomFn Option.none Option.none [] [] =
        some (events, .error (callTypeParam Option.none))
      ∧ dictLookup events "result" = Option.none
      ∧ (callTypeParam Option.none).typeName = "TypeError"
      ∧ (callTypeParam Option.none ≠
          (⟨"ValueError", "boom", [.str "boom"]⟩ : PyExn)) := by
  have h := c1_wrapper_exception_bug boomFn Option.none Option.none [] [] []
    ⟨"ValueError", "boom", [.str "boom"]⟩ (by rfl) (by rfl)
  obtain ⟨events, h1, h2, h3, h4⟩ := h
  exact ⟨events, h1, h2, h3, h4 (by decide)⟩

/-! ## C2: usage hoisting

Specification-side definitions, written from the claim's words: a closed
frame's `__usage` should equal, per metric key, the usage carried by its
own result (a single mapping's `usage` sub-mapping, or the sum over a
sequence of mappings each possibly carrying a `usage` sub-mapping) plus the
`__usage` of every direct child frame, with missing keys read as zero. -/

/-- the integer a usage object carries at metric `k`; zero when the object
is not a mapping, the key is absent, or the value is not an integer (the
claim's missing-keys-default-to-zero reading) -/
def usageVal (u : PyValue) (k : String) : Int :=
  match u with
  | .dict kvs =>
    match dictLookup kvs k with
    | some (.int n) => n
    | _ => 0
  | _ => 0

/-- contribution of a usage item list at metric `k` when every item is
added in order -/
def itemsSum (us : List (String × PyValue)) (k : String) : Int :=
  (us.map (fun kv =>
    if kv.1 = k then (match kv.2 with | .int n => n | _ => 0) else 0)).sum

/-- the usage a single stream element contributes under the claim's
reading (a mapping carrying a mapping-shaped `usage` sub-mapping) -/
def streamElemUsage (r : PyValue) (k : String) : Int :=
  match r with
  | .dict m =>
    match dictLookup m "usage" with
    | some (.dict us) => usageVal (.dict us) k
    | _ => 0
  | _ => 0

/-- the usage a sequence-shaped result contributes, per metric key -/
def streamSum (rs : List PyValue) (k : String) : Int :=
  (rs.map (fun r => streamElemUsage r k)).sum

/-- the `__usage` one direct child frame contributes under the claim's
reading -/
def childElemUsage (c : PyValue) (k : String) : Int :=
  match c with
  | .dict m =>
    match dictLookup m "__usage" with
    | some u => usageVal u k
    | Option.none => 0
  | _ => 0

/-- the claim's reading of the children's contribution: the sum of the
`__usage` of every direct child frame -/
def claimChildUsage (children : List PyValue) (k : String) : Int :=
  (children.map (fun c => childElemUsage c k)).sum

/-- the usage a mapping-shaped result contributes through its `usage`
sub-mapping -/
def dictResultUsage (result : Option PyValue) (k : String) : Int :=
  match result with
  | some (.dict kvs) =>
    match dictLookup kvs "usage" with
    | some u => usageVal u k
    | Option.none => 0
  | _ => 0

/-- the usage a sequence-shaped result contributes -/
def listResultUsage (result : Option PyValue) (k : String) : Int :=
  match result with
  | some (.list rs) => streamSum rs k
  | _ => 0

/-- the claim's reading of the usage carried by a frame's own result -/
def claimResultUsage (result : Option PyValue) (k : String) : Int :=
  match result with
  | some (.dict kvs) =>
    match dictLookup kvs "usage" with
    | some u => usageVal u k
    | Option.none => 0
  | some (.list rs) => streamSum rs k
  | _ => 0

theorem claimResultUsage_split (result : Option PyValue) (k : String) :
    claimResultUsage result k =
      dictResultUsage result k + listResultUsage result k := by
  match result with
  | Option.none => rfl
  | some (.dict kvs) =>
    simp [claimResultUsage, dictResultUsage, listResultUsage]
  | some (.list rs) =>
    simp [claimResultUsage, dictResultUsage, listResultUsage]
  | some (.str _) | some (.int _) | some (.bool _) | some .none => rfl

/-! Shape conditions under which the claim speaks: usage objects are
Python dicts with integer values (and, being Python dicts, duplicate-free
keys), and the `__frames` slot holds the recorder-built list of dict
frames. -/

/-- every value of the association list is an integer -/
def allIntVals : List (String × PyValue) → Bool
  | [] => true
  | (_, .int _) :: rest => allIntVals rest
  | _ => false

/-- no key occurs twice (true of every association list that models a
Python dict) -/
def keysNodup : List (String × PyValue) → Bool
  | [] => true
  | (k, _) :: rest => !(rest.any (fun kv => kv.1 == k)) && keysNodup rest

/-- a well-shaped usage object: an integer-valued, duplicate-free dict -/
def isIntUsage (u : PyValue) : Bool :=
  match u with
  | .dict kvs => allIntVals kvs && keysNodup kvs
  | _ => false

/-- shape condition on a frame's `result` field -/
def resultShapeOk : Option PyValue → Bool
  | Option.none => true
  | some (.dict kvs) =>
    match dictLookup kvs "usage" with
    | some u => isIntUsage u
    | Option.none => true
  | some (.list rs) =>
    rs.all (fun r =>
      match r with
      | .dict m =>
        match dictLookup m "usage" with
        | some (.dict us) => allIntVals us && keysNodup us
        | _ => true
      | _ => true)
  | some _ => true

/-- shape condition on the recorder-built child list: every child is a
dict frame whose `__usage`, when present, is a well-shaped usage object -/
def childrenShapeOk (cs : List PyValue) : Bool :=
  cs.all (fun c =>
    match c with
    | .dict m =>
      match dictLookup m "__usage" with
      | some u => isIntUsage u
      | Option.none => true
    | _ => false)

/-- shape condition on a frame's `__frames` field -/
def framesShapeOk : Option PyValue → Bool
  | Option.none => true
  | some (.list cs) => childrenShapeOk cs
  | some _ => false

/-- the direct children recorded in a frame's `__frames` field -/
def childrenOf : Option PyValue → List PyValue
  | some (.list cs) => cs
  | _ => []

/-- rolling `__usage` accumulator shapes: absent, or an integer-valued
dict -/
def optIntUsage : Option PyValue → Bool
  | Option.none => true
  | some (.dict kvs) => allIntVals kvs
  | some _ => false

/-- the metric read on an optional `__usage` accumulator -/
def optUsageVal : Option PyValue → String → Int
  | some u, k => usageVal u k
  | Option.none, _ => 0

theorem itemsSum_cons_int (k0 : String) (n0 : Int)
    (tl : List (String × PyValue)) (k : String) :
    itemsSum ((k0, .int n0) :: tl) k =
      (if k0 = k then n0 else 0) + itemsSum tl k := by
  by_cases hk : k0 = k <;> simp [itemsSum, hk]

theorem usageVal_cons (k0 : String) (v0 : PyValue)
    (tl : List (String × PyValue)) (k : String) :
    usageVal (.dict ((k0, v0) :: tl)) k =
      if k0 = k then (match v0 with | .int n => n | _ => 0)
      else usageVal (.dict tl) k := by
  by_cases hk : k0 = k
  · cases v0 <;> simp [usageVal, dictLookup, hk]
  · simp [usageVal, dictLookup, hk]

theorem itemsSum_zero_of_not_any (us : List (String × PyValue)) (k : String)
    (h : us.any (fun kv => kv.1 == k) = false) : itemsSum us k = 0 := by
  induction us with
  | nil => rfl
  | cons hd tl ih =>
    obtain ⟨k0, v0⟩ := hd
    simp only [List.any_cons, Bool.or_eq_false_iff, beq_eq_false_iff_ne] at h
    have h2 : itemsSum tl k = 0 := ih (by simpa using h.2)
    simp [itemsSum, List.map_cons, List.sum_cons, if_neg h.1]
    simpa [itemsSum] using h2

theorem itemsSum_eq_usageVal (us : List (String × PyValue))
    (hn : keysNodup us = true) (k : String) :
    itemsSum us k = usageVal (.dict us) k := by
  induction us with
  | nil => rfl
  | cons hd tl ih =>
    obtain ⟨k0, v0⟩ := hd
    simp only [keysNodup, Bool.and_eq_true, Bool.not_eq_true',
      List.any_eq_false] at hn
    have htl : keysNodup tl = true := by
      rcases hn with ⟨-, h2⟩
      revert h2
      cases keysNodup tl <;> simp
    rw [usageVal_cons]
    by_cases hk : k0 = k
    · subst hk
      have hz : itemsSum tl k0 = 0 := by
        apply itemsSum_zero_of_not_any
        simp only [List.any_eq_false]
        intro kv hkv
        simpa using hn.1 kv hkv
      rw [if_pos rfl]
      cases v0 <;> simp [itemsSum, hz]
      all_goals simpa [itemsSum] using hz
    · rw [if_neg hk]
      have hcons : itemsSum ((k0, v0) :: tl) k = itemsSum tl k := by
        simp [itemsSum, if_neg hk]
      rw [hcons, ih htl]

theorem allIntVals_lookup {kvs : List (String × PyValue)}
    (h : allIntVals kvs = true) {k : String} {v : PyValue}
    (hl : dictLookup kvs k = some v) : ∃ n, v = .int n := by
  induction kvs with
  | nil => simp [dictLookup] at hl
  | cons hd tl ih =>
    obtain ⟨k0, v0⟩ := hd
    have hint : (∃ n, v0 = PyValue.int n) ∧ allIntVals tl = true := by
      cases v0 <;> simp_all [allIntVals]
    obtain ⟨⟨n, rfl⟩, htl⟩ := hint
    by_cases hk : k0 = k
    · subst hk
      simp [dictLookup] at hl
      exact ⟨n, hl.symm⟩
    · exact ih htl (by simpa [dictLookup, hk] using hl)

theorem allIntVals_dictSet (kvs : List (String × PyValue)) (k : String)
    (n : Int) (h : allIntVals kvs = true) :
    allIntVals (dictSet kvs k (.int n)) = true := by
  induction kvs with
  | nil => simp [dictSet, allIntVals]
  | cons hd tl ih =>
    obtain ⟨k0, v0⟩ := hd
    have hint : (∃ m, v0 = PyValue.int m) ∧ allIntVals tl = true := by
      cases v0 <;> simp_all [allIntVals]
    obtain ⟨⟨m, rfl⟩, htl⟩ := hint
    by_cases hk : k0 = k <;>
      simp [dictSet, hk, allIntVals, ih htl, htl]

theorem usageVal_dictSet_int (kvs : List (String × PyValue))
    (k0 : String) (n : Int) (k : String) :
    usageVal (.dict (dictSet kvs k0 (.int n))) k =
      if k0 = k then n else usageVal (.dict kvs) k := by
  simp only [usageVal, dictLookup_dictSet]
  by_cases hk : k0 = k <;> simp [hk]

theorem accUsage_spec (us : List (String × PyValue)) :
    ∀ kvs : List (String × PyValue), allIntVals kvs = true →
      allIntVals us = true →
      ∃ kvs', accUsage (.dict kvs) us = .ok (.dict kvs')
        ∧ allIntVals kvs' = true
        ∧ ∀ k, usageVal (.dict kvs') k =
            usageVal (.dict kvs) k + itemsSum us k := by
  induction us with
  | nil =>
    intro kvs hacc _
    exact ⟨kvs, rfl, hacc, fun k => by simp [itemsSum]⟩
  | cons hd tl ih =>
    intro kvs hacc hus
    obtain ⟨k0, v0⟩ := hd
    have hint : (∃ m, v0 = PyValue.int m) ∧ allIntVals tl = true := by
      cases v0 <;> simp_all [allIntVals]
    obtain ⟨⟨n0, rfl⟩, htl⟩ := hint
    cases hlk : dictLookup kvs k0 with
    | none =>
      have hstep : accUsage (.dict kvs) ((k0, .int n0) :: tl) =
          accUsage (.dict (dictSet kvs k0 (.int n0))) tl := by
        simp [accUsage, pyInOp, hlk, pySubSet, Bind.bind, Except.bind]
      obtain ⟨kvs', h1, h2, h3⟩ :=
        ih (dictSet kvs k0 (.int n0)) (allIntVals_dictSet kvs k0 n0 hacc)
          htl
      refine ⟨kvs', by rw [hstep]; exact h1, h2, fun k => ?_⟩
      rw [h3 k, usageVal_dictSet_int, itemsSum_cons_int]
      have h0 : usageVal (.dict kvs) k0 = 0 := by
        simp [usageVal, hlk]
      by_cases hk : k0 = k
      · subst hk; rw [if_pos rfl, if_pos rfl, h0]; omega
      · rw [if_neg hk, if_neg hk]; omega
    | some old =>
      obtain ⟨m, rfl⟩ := allIntVals_lookup hacc hlk
      have hstep : accUsage (.dict kvs) ((k0, .int n0) :: tl) =
          accUsage (.dict (dictSet kvs k0 (.int (m + n0)))) tl := by
        simp [accUsage, pyInOp, hlk, pySubGet, pySubSet, pyAdd, Bind.bind,
          Except.bind]
      obtain ⟨kvs', h1, h2, h3⟩ :=
        ih (dictSet kvs k0 (.int (m + n0)))
          (allIntVals_dictSet kvs k0 (m + n0) hacc) htl
      refine ⟨kvs', by rw [hstep]; exact h1, h2, fun k => ?_⟩
      rw [h3 k, usageVal_dictSet_int, itemsSum_cons_int]
      have h0 : usageVal (.dict kvs) k0 = m := by
        simp [usageVal, hlk]
      by_cases hk : k0 = k
      · subst hk; rw [if_pos rfl, if_pos rfl, h0]; omega
      · rw [if_neg hk, if_neg hk]; omega

theorem streamSum_cons (r : PyValue) (rest : List PyValue) (k : String) :
    streamSum (r :: rest) k = streamElemUsage r k + streamSum rest k := by
  simp [streamSum]

theorem claimChildUsage_cons (c : PyValue) (cs : List PyValue) (k : String) :
    claimChildUsage (c :: cs) k =
      childElemUsage c k + claimChildUsage cs k := by
  simp [claimChildUsage]

theorem optUsageVal_some (x : PyValue) (k : String) :
    optUsageVal (some x) k = usageVal x k := rfl

theorem optIntUsage_getD (u : Option PyValue) (hu : optIntUsage u = true) :
    ∃ kvs0, u.getD (.dict []) = .dict kvs0 ∧ allIntVals kvs0 = true
      ∧ ∀ k, usageVal (.dict kvs0) k = optUsageVal u k := by
  cases u with
  | none =>
    exact ⟨[], rfl, rfl, fun k => by simp [usageVal, dictLookup, optUsageVal]⟩
  | some x =>
    cases x with
    | dict kvs =>
      exact ⟨kvs, rfl, by simpa [optIntUsage] using hu, fun k => rfl⟩
    | str _ => simp [optIntUsage] at hu
    | int _ => simp [optIntUsage] at hu
    | bool _ => simp [optIntUsage] at hu
    | none => simp [optIntUsage] at hu
    | list _ => simp [optIntUsage] at hu

theorem hoistStreamList_spec (rs : List PyValue) :
    ∀ u : Option PyValue, optIntUsage u = true →
      (rs.all (fun r =>
        match r with
        | .dict m =>
          match dictLookup m "usage" with
          | some (.dict us) => allIntVals us && keysNodup us
          | _ => true
        | _ => true)) = true →
      ∃ u', hoistStreamList rs u = .ok u'
        ∧ optIntUsage u' = true
        ∧ ∀ k, optUsageVal u' k = optUsageVal u k + streamSum rs k := by
  induction rs with
  | nil =>
    intro u hu _
    exact ⟨u, rfl, hu, fun k => by simp [streamSum]⟩
  | cons r rest ih =>
    intro u hu hall
    simp only [List.all_cons, Bool.and_eq_true] at hall
    cases r with
    | dict m =>
      cases hus : dictLookup m "usage" with
      | none =>
        obtain ⟨u', h1, h2, h3⟩ := ih u hu hall.2
        refine ⟨u', ?_, h2, fun k => ?_⟩
        · simpa [hoistStreamList, hus] using h1
        · rw [streamSum_cons]
          have hz : streamElemUsage (.dict m) k = 0 := by
            simp [streamElemUsage, hus]
          rw [hz]
          have := h3 k
          omega
      | some uv =>
        cases uv with
        | dict us =>
          have hshape : allIntVals us = true ∧ keysNodup us = true := by
            simpa [hus] using hall.1
          obtain ⟨kvs0, hgd, hint0, hval0⟩ := optIntUsage_getD u hu
          obtain ⟨kvs', hacc, hint', hval'⟩ :=
            accUsage_spec us kvs0 hint0 hshape.1
          obtain ⟨u', h1, h2, h3⟩ :=
            ih (some (.dict kvs')) (by simpa [optIntUsage] using hint')
              hall.2
          refine ⟨u', ?_, h2, fun k => ?_⟩
          · simpa [hoistStreamList, hus, hgd, hacc, Bind.bind, Except.bind]
              using h1
          · rw [streamSum_cons]
            have he : streamElemUsage (.dict m) k = itemsSum us k := by
              simp [streamElemUsage, hus,
                itemsSum_eq_usageVal us hshape.2 k]
            rw [h3 k, optUsageVal_some, hval' k, hval0 k, he]
            omega
        | str _ | int _ | bool _ | none | list _ =>
          obtain ⟨u', h1, h2, h3⟩ := ih u hu hall.2
          refine ⟨u', ?_, h2, fun k => ?_⟩
          · simpa [hoistStreamList, hus] using h1
          · rw [streamSum_cons]
            have hz : streamElemUsage (.dict m) k = 0 := by
              simp [streamElemUsage, hus]
            rw [hz]
            have := h3 k
            omega
    | str _ | int _ | bool _ | none | list _ =>
      obtain ⟨u', h1, h2, h3⟩ := ih u hu hall.2
      refine ⟨u', ?_, h2, fun k => ?_⟩
      · simpa [hoistStreamList] using h1
      · rw [streamSum_cons]
        have := h3 k
        simp only [streamElemUsage]
        omega

theorem hoistChildren_spec (cs : List PyValue) :
    ∀ u : Option PyValue, optIntUsage u = true →
      childrenShapeOk cs = true →
      ∃ u', hoistChildren cs u = .ok u'
        ∧ optIntUsage u' = true
        ∧ ∀ k, optUsageVal u' k = optUsageVal u k + claimChildUsage cs k := by
  induction cs with
  | nil =>
    intro u hu _
    exact ⟨u, rfl, hu, fun k => by simp [claimChildUsage]⟩
  | cons c rest ih =>
    intro u hu hall
    simp only [childrenShapeOk, List.all_cons, Bool.and_eq_true] at hall
    cases c with
    | dict m =>
      cases hcu : dictLookup m "__usage" with
      | none =>
        obtain ⟨u', h1, h2, h3⟩ :=
          ih u hu (by simpa [childrenShapeOk] using hall.2)
        refine ⟨u', ?_, h2, fun k => ?_⟩
        · simpa [hoistChildren, pyInOp, hcu, Bind.bind, Except.bind]
            using h1
        · rw [claimChildUsage_cons]
          have hz : childElemUsage (.dict m) k = 0 := by
            simp [childElemUsage, hcu]
          rw [hz]
          have := h3 k
          omega
      | some cu =>
        have hint : isIntUsage cu = true := by simpa [hcu] using hall.1
        cases cu with
        | dict cus =>
          have hsh : allIntVals cus = true ∧ keysNodup cus = true := by
            simpa [isIntUsage] using hint
          obtain ⟨kvs0, hgd, hint0, hval0⟩ := optIntUsage_getD u hu
          obtain ⟨kvs', hacc, hint', hval'⟩ :=
            accUsage_spec cus kvs0 hint0 hsh.1
          obtain ⟨u', h1, h2, h3⟩ :=
            ih (some (.dict kvs')) (by simpa [optIntUsage] using hint')
              (by simpa [childrenShapeOk] using hall.2)
          refine ⟨u', ?_, h2, fun k => ?_⟩
          · simpa [hoistChildren, pyInOp, hcu, pySubGet, hgd, hacc,
              Bind.bind, Except.bind] using h1
          · rw [claimChildUsage_cons]
            have he : childElemUsage (.dict m) k = itemsSum cus k := by
              simp [childElemUsage, hcu,
                itemsSum_eq_usageVal cus hsh.2 k]
            rw [h3 k, optUsageVal_some, hval' k, hval0 k, he]
            omega
        | str _ => simp [isIntUsage] at hint
        | int _ => simp [isIntUsage] at hint
        | bool _ => simp [isIntUsage] at hint
        | none => simp [isIntUsage] at hint
        | list _ => simp [isIntUsage] at hint
    | str _ => simp at hall
    | int _ => simp at hall
    | bool _ => simp at hall
    | none => simp at hall
    | list _ => simp at hall

theorem hoistResult_none_spec (result : Option PyValue)
    (h : resultShapeOk result = true) :
    ∃ u', hoistResult result Option.none = .ok u'
      ∧ optIntUsage u' = true
      ∧ ∀ k, optUsageVal u' k = dictResultUsage result k := by
  match result with
  | Option.none => exact ⟨Option.none, rfl, rfl, fun _ => rfl⟩
  | some (.str _) => exact ⟨Option.none, rfl, rfl, fun _ => rfl⟩
  | some (.int _) => exact ⟨Option.none, rfl, rfl, fun _ => rfl⟩
  | some (.bool _) => exact ⟨Option.none, rfl, rfl, fun _ => rfl⟩
  | some .none => exact ⟨Option.none, rfl, rfl, fun _ => rfl⟩
  | some (.list _) => exact ⟨Option.none, rfl, rfl, fun _ => rfl⟩
  | some (.dict kvs) =>
    cases hus : dictLookup kvs "usage" with
    | none =>
      refine ⟨Option.none, ?_, rfl, fun k => ?_⟩
      · simp [hoistResult, hus]
      · simp [dictResultUsage, hus, optUsageVal]
    | some uv =>
      have hint : isIntUsage uv = true := by
        simpa [resultShapeOk, hus] using h
      cases uv with
      | dict us =>
        have hsh : allIntVals us = true ∧ keysNodup us = true := by
          simpa [isIntUsage] using hint
        refine ⟨some (.dict us), ?_, ?_, fun k => ?_⟩
        · simp [hoistResult, hus]
        · simpa [optIntUsage] using hsh.1
        · simp [dictResultUsage, hus, optUsageVal_some]
      | str _ => simp [isIntUsage] at hint
      | int _ => simp [isIntUsage] at hint
      | bool _ => simp [isIntUsage] at hint
      | none => simp [isIntUsage] at hint
      | list _ => simp [isIntUsage] at hint

theorem hoistStream_spec (result : Option PyValue) (u : Option PyValue)
    (hu : optIntUsage u = true) (h : resultShapeOk result = true) :
    ∃ u', hoistStream result u = .ok u'
      ∧ optIntUsage u' = true
      ∧ ∀ k, optUsageVal u' k =
          optUsageVal u k + listResultUsage result k := by
  match result with
  | some (.list rs) =>
    obtain ⟨u', h1, h2, h3⟩ := hoistStreamList_spec rs u hu
      (by simpa [resultShapeOk] using h)
    exact ⟨u', h1, h2, fun k => by rw [h3 k]; rfl⟩
  | Option.none => exact ⟨u, rfl, hu, fun k => by simp [listResultUsage]⟩
  | some (.str _) => exact ⟨u, rfl, hu, fun k => by simp [listResultUsage]⟩
  | some (.int _) => exact ⟨u, rfl, hu, fun k => by simp [listResultUsage]⟩
  | some (.bool _) => exact ⟨u, rfl, hu, fun k => by simp [listResultUsage]⟩
  | some .none => exact ⟨u, rfl, hu, fun k => by simp [listResultUsage]⟩
  | some (.dict _) => exact ⟨u, rfl, hu, fun k => by simp [listResultUsage]⟩

/-- C2: for every frame closed by the file-backed recorder (the close path
applies `hoistUsage` to the popped frame), the resulting `__usage` carries,
per metric key, the sum of the usage carried by the frame's own result —
whether a single mapping with a `usage` sub-mapping or a sequence of
mappings each possibly carrying one — plus the `__usage` of every direct
child frame, with keys missing from any contributor read as zero (an
absent `__usage` reads as the empty mapping). -/
theorem c2_usage_hoisting (fr : Frame)
    (h0 : dictLookup fr "__usage" = Option.none)
    (hres : resultShapeOk (dictLookup fr "result") = true)
    (hfr : framesShapeOk (dictLookup fr "__frames") = true) :
    ∃ fr', hoistUsage fr = .ok fr'
      ∧ ∀ k, usageVal ((dictLookup fr' "__usage").getD (.dict [])) k
          = claimResultUsage (dictLookup fr "result") k
            + claimChildUsage (childrenOf (dictLookup fr "__frames")) k := by
  obtain ⟨u1, hu1, hint1, hval1⟩ :=
    hoistResult_none_spec (dictLookup fr "result") hres
  obtain ⟨u2, hu2, hint2, hval2⟩ :=
    hoistStream_spec (dictLookup fr "result") u1 hint1 hres
  cases hfrs : dictLookup fr "__frames" with
  | none =>
    cases u2 with
    | some uu =>
      have hrun : hoistUsage fr = .ok (dictSet fr "__usage" uu) := by
        simp [hoistUsage, h0, hu1, hu2, hfrs, Bind.bind, Except.bind]
      refine ⟨dictSet fr "__usage" uu, hrun, fun k => ?_⟩
      have hlk : dictLookup (dictSet fr "__usage" uu) "__usage" = some uu :=
        by rw [dictLookup_dictSet]; simp
      rw [hlk, Option.getD_some]
      have := hval2 k
      rw [optUsageVal_some] at this
      rw [this, hval1 k, claimResultUsage_split]
      simp [childrenOf, claimChildUsage]
    | none =>
      have hrun : hoistUsage fr = .ok fr := by
        simp [hoistUsage, h0, hu1, hu2, hfrs, Bind.bind, Except.bind]
      refine ⟨fr, hrun, fun k => ?_⟩
      rw [h0]
      have h2 := hval2 k
      have h1 := hval1 k
      simp only [optUsageVal] at h2 h1
      rw [claimResultUsage_split]
      simp only [childrenOf, claimChildUsage, List.map_nil, List.sum_nil]
      simp [usageVal, dictLookup]
      omega
  | some fv =>
    cases fv with
    | list cs =>
      have hcs : childrenShapeOk cs = true := by
        simpa [framesShapeOk, hfrs] using hfr
      obtain ⟨u3, hu3, hint3, hval3⟩ := hoistChildren_spec cs u2 hint2 hcs
      cases u3 with
      | some uu =>
        have hrun : hoistUsage fr = .ok (dictSet fr "__usage" uu) := by
          simp [hoistUsage, h0, hu1, hu2, hfrs, pyIter, hu3, Bind.bind,
            Except.bind]
        refine ⟨dictSet fr "__usage" uu, hrun, fun k => ?_⟩
        have hlk : dictLookup (dictSet fr "__usage" uu) "__usage" = some uu :=
          by rw [dictLookup_dictSet]; simp
        rw [hlk, Option.getD_some]
        have h3 := hval3 k
        rw [optUsageVal_some] at h3
        rw [h3, hval2 k, hval1 k, claimResultUsage_split]
        simp only [childrenOf]
      | none =>
        have hrun : hoistUsage fr = .ok fr := by
          simp [hoistUsage, h0, hu1, hu2, hfrs, pyIter, hu3, Bind.bind,
            Except.bind]
        refine ⟨fr, hrun, fun k => ?_⟩
        rw [h0]
        have h3 := hval3 k
        have h2 := hval2 k
        have h1 := hval1 k
        simp only [optUsageVal] at h3 h2 h1
        rw [claimResultUsage_split]
        simp only [childrenOf]
        simp [usageVal, dictLookup]
        omega
    | str _ => simp [framesShapeOk, hfrs] at hfr
    | int _ => simp [framesShapeOk, hfrs] at hfr
    | bool _ => simp [framesShapeOk, hfrs] at hfr
    | none => simp [framesShapeOk, hfrs] at hfr
    | dict _ => simp [framesShapeOk, hfrs] at hfr

/-- the usage-aggregation scenario from the spec: a root whose result
carries `{"usage": {"a": 2}}` with one child whose `__usage` is
`{"a": 3, "b": 1}` -/
def exampleFrame : Frame :=
  [("name", .str "root"),
   ("result", .dict [("usage", .dict [("a", .int 2)])]),
   ("__frames", .list
     [.dict [("name", .str "child"),
             ("__usage", .dict [("a", .int 3), ("b", .int 1)])]])]

/-- witness for `c2_usage_hoisting`: on the spec's scenario the recorder
persists `__usage == {"a": 5, "b": 1}`. -/
theorem c2_usage_hoisting_witness :
    dictLookup exampleFrame "__usage" = Option.none
    ∧ resultShapeOk (dictLookup exampleFrame "result") = true
    ∧ framesShapeOk (dictLookup exampleFrame "__frames") = true
    ∧ (∃ fr', hoistUsage exampleFrame = .ok fr'
        ∧ ∀ k, usageVal ((dictLookup fr' "__usage").getD (.dict [])) k
            = claimResultUsage (dictLookup exampleFrame "result") k
              + claimChildUsage
                  (childrenOf (dictLookup exampleFrame "__frames")) k)
    ∧ (hoistUsage exampleFrame).map (fun fr' => dictLookup fr' "__usage")
        = .ok (some (.dict [("a", .int 5), ("b", .int 1)])) :=
  ⟨by decide, by decide, by decide,
    c2_usage_hoisting exampleFrame (by decide) (by decide) (by decide),
    rfl⟩

/-! ## C3: one artifact per root span -/

theorem closeStep_root (version ts : String) (timeEntry : PyValue)
    (fr fr' : Frame) (as : List Artifact) (nameV : PyValue)
    (hh : hoistUsage (dictSet fr "__time" timeEntry) = .ok fr')
    (hn : dictLookup fr' "name" = some nameV) :
    closeStep version ts timeEntry ⟨[fr], as⟩ =
      .ok ⟨[], as ++ [⟨"python", version, .dict fr',
        pyStrOf nameV ++ "." ++ ts ++ ".tracy"⟩]⟩ := by
  simp [closeStep, hh, pySubGet, hn, Bind.bind, Except.bind]

theorem closeStep_nested_some (version ts : String) (timeEntry : PyValue)
    (fr fr' parent : Frame) (ps : List Frame) (as : List Artifact)
    (xs : List PyValue)
    (hh : hoistUsage (dictSet fr "__time" timeEntry) = .ok fr')
    (hf : dictLookup parent "__frames" = some (.list xs)) :
    closeStep version ts timeEntry ⟨fr :: parent :: ps, as⟩ =
      .ok ⟨dictSet parent "__frames" (.list (xs ++ [.dict fr'])) :: ps,
        as⟩ := by
  simp [closeStep, hh, hf, Bind.bind, Except.bind]

theorem closeStep_nested_none (version ts : String) (timeEntry : PyValue)
    (fr fr' parent : Frame) (ps : List Frame) (as : List Artifact)
    (hh : hoistUsage (dictSet fr "__time" timeEntry) = .ok fr')
    (hf : dictLookup parent "__frames" = Option.none) :
    closeStep version ts timeEntry ⟨fr :: parent :: ps, as⟩ =
      .ok ⟨dictSet parent "__frames" (.list [.dict fr']) :: ps, as⟩ := by
  simp [closeStep, hh, hf, Bind.bind, Except.bind]

theorem closeStep_shape (version ts : String) (timeEntry : PyValue)
    (st st1 : RecState)
    (h : closeStep version ts timeEntry st = .ok st1) :
    ∃ n, st.stack.length = n + 1 ∧ st1.stack.length = n
      ∧ st1.artifacts.length =
          st.artifacts.length + (if n = 0 then 1 else 0) := by
  obtain ⟨stack, as⟩ := st
  cases stack with
  | nil => simp [closeStep] at h
  | cons fr rest =>
    cases hh : hoistUsage (dictSet fr "__time" timeEntry) with
    | error e => simp [closeStep, hh, Bind.bind, Except.bind] at h
    | ok fr' =>
      cases rest with
      | nil =>
        cases hsub : pySubGet (PyValue.dict fr') "name" with
        | error e =>
          simp [closeStep, hh, hsub, Bind.bind, Except.bind] at h
        | ok nameV =>
          refine ⟨0, by simp, ?_, ?_⟩ <;>
            simp only [closeStep, hh, hsub, Bind.bind, Except.bind] at h <;>
            cases h <;> simp
      | cons parent ps =>
        cases hf : dictLookup parent "__frames" with
        | none =>
          refine ⟨ps.length + 1, by simp, ?_, ?_⟩ <;>
            rw [closeStep_nested_none version ts timeEntry fr fr' parent ps
              as hh hf] at h <;>
            cases h <;> simp
        | some fv =>
          cases fv with
          | list xs =>
            refine ⟨ps.length + 1, by simp, ?_, ?_⟩ <;>
              rw [closeStep_nested_some version ts timeEntry fr fr' parent
                ps as xs hh hf] at h <;>
              cases h <;> simp
          | str _ => simp [closeStep, hh, hf, Bind.bind, Except.bind] at h
          | int _ => simp [closeStep, hh, hf, Bind.bind, Except.bind] at h
          | bool _ => simp [closeStep, hh, hf, Bind.bind, Except.bind] at h
          | none => simp [closeStep, hh, hf, Bind.bind, Except.bind] at h
          | dict _ => simp [closeStep, hh, hf, Bind.bind, Except.bind] at h

theorem runRecorder_count (version ts : String)
    (startEntry timeEntry : PyValue) (evs : List TraceEv) :
    ∀ st st' : RecState,
      runRecorder version ts startEntry timeEntry evs st = .ok st' →
      st'.artifacts.length =
        st.artifacts.length + rootCloses evs st.stack.length := by
  induction evs with
  | nil =>
    intro st st' h
    simp only [runRecorder] at h
    cases h
    simp [rootCloses]
  | cons ev rest ih =>
    intro st st' h
    cases ev with
    | push n =>
      simp only [runRecorder, Bind.bind, Except.bind] at h
      have := ih (openStep n startEntry st) st' h
      simpa [openStep, rootCloses] using this
    | add k v =>
      obtain ⟨stack, as⟩ := st
      cases stack with
      | nil => simp [runRecorder, addStep, Bind.bind, Except.bind] at h
      | cons fr tl =>
        simp only [runRecorder, addStep, Bind.bind, Except.bind] at h
        have := ih _ st' h
        simpa [rootCloses] using this
    | pop =>
      cases hc : closeStep version ts timeEntry st with
      | error e =>
        simp [runRecorder, hc, Bind.bind, Except.bind] at h
      | ok st1 =>
        simp only [runRecorder, hc, Bind.bind, Except.bind] at h
        obtain ⟨n, hlen, hlen1, hart⟩ :=
          closeStep_shape version ts timeEntry st st1 hc
        have := ih st1 st' h
        rw [this, hart, hlen1, hlen]
        have hroot : rootCloses (TraceEv.pop :: rest) (n + 1) =
            (if n + 1 = 1 then 1 else 0) + rootCloses rest n := by
          simp [rootCloses]
        rw [hroot]
        by_cases hn : n = 0
        · subst hn; simp; omega
        · rw [if_neg hn, if_neg (by omega)]
          omega

/-- C3: a pop that empties the recorder's stack (a root span) writes
exactly one artifact, serialized as `{runtime: "python", version,
trace: frame}` under the file name `"{root-name}.{timestamp}.tracy"`; a pop
with frames below it writes nothing and appends the closed frame to the new
stack top's `__frames` list (creating it when absent); consequently, over
any event sequence the recorder completes, the number of artifacts written
equals the number of closes performed at nesting depth one. -/
theorem c3_one_artifact_per_root (version ts : String)
    (startEntry timeEntry : PyValue) :
    (∀ (fr fr' : Frame) (as : List Artifact) (nameV : PyValue),
      hoistUsage (dictSet fr "__time" timeEntry) = .ok fr' →
      dictLookup fr' "name" = some nameV →
      closeStep version ts timeEntry ⟨[fr], as⟩ =
        .ok ⟨[], as ++ [⟨"python", version, .dict fr',
          pyStrOf nameV ++ "." ++ ts ++ ".tracy"⟩]⟩)
    ∧ (∀ (fr fr' parent : Frame) (ps : List Frame) (as : List Artifact)
        (xs : List PyValue),
      hoistUsage (dictSet fr "__time" timeEntry) = .ok fr' →
      dictLookup parent "__frames" = some (.list xs) →
      closeStep version ts timeEntry ⟨fr :: parent :: ps, as⟩ =
        .ok ⟨dictSet parent "__frames" (.list (xs ++ [.dict fr'])) :: ps,
          as⟩)
    ∧ (∀ (fr fr' parent : Frame) (ps : List Frame) (as : List Artifact),
      hoistUsage (dictSet fr "__time" timeEntry) = .ok fr' →
      dictLookup parent "__frames" = Option.none →
      closeStep version ts timeEntry ⟨fr :: parent :: ps, as⟩ =
        .ok ⟨dictSet parent "__frames" (.list [.dict fr']) :: ps, as⟩)
    ∧ (∀ (evs : List TraceEv) (st' : RecState),
      runRecorder version ts startEntry timeEntry evs ⟨[], []⟩ = .ok st' →
      st'.artifacts.length = rootCloses evs 0) :=
  ⟨fun fr fr' as nameV hh hn =>
      closeStep_root version ts timeEntry fr fr' as nameV hh hn,
    fun fr fr' parent ps as xs hh hf =>
      closeStep_nested_some version ts timeEntry fr fr' parent ps as xs hh
        hf,
    fun fr fr' parent ps as hh hf =>
      closeStep_nested_none version ts timeEntry fr fr' parent ps as hh hf,
    fun evs st' h => by
      have := runRecorder_count version ts startEntry timeEntry evs
        ⟨[], []⟩ st' h
      simpa using this⟩

/-- an example close-time `__time` entry -/
def timeEx : PyValue :=
  .dict [("start", .str "s"), ("end", .str "e"), ("duration", .int 0)]

/-- a nested two-span run: open outer, open inner, close inner, close
outer -/
def evsEx : List TraceEv := [.push "outer", .push "inner", .pop, .pop]

/-- the state the recorder reaches on `evsEx`: one artifact, for the root
span only, holding the inner frame inside the root frame's `__frames` -/
def stEx : RecState where
  stack := []
  artifacts :=
    [⟨"python", "1.0.0",
      PyValue.dict
        [("name", .str "outer"),
         ("__time", timeEx),
         ("__frames", .list
           [.dict [("name", .str "inner"), ("__time", timeEx)]])],
      "outer.20260101.000000.tracy"⟩]

/-- witness for `c3_one_artifact_per_root`: the nested run produces
exactly one artifact, matching its single root close. -/
theorem c3_one_artifact_per_root_witness :
    runRecorder "1.0.0" "20260101.000000" (PyValue.str "t0") timeEx evsEx
        ⟨[], []⟩ = .ok stEx
    ∧ stEx.artifacts.length = rootCloses evsEx 0
    ∧ rootCloses evsEx 0 = 1 :=
  ⟨rfl,
    (c3_one_artifact_per_root "1.0.0" "20260101.000000" (PyValue.str "t0")
      timeEx).2.2.2 evsEx stEx rfl,
    by decide⟩
